import Mathlib

/-!
Verification development for the claude-analytics session-grouping and
derived-metrics engine.  The definitions below are shallow embeddings of the
TypeScript source: history entries and sessions (src/types), the session
builder `groupIntoSessions` (history parser), the SQLite-backed tables and
upserts (database/schema.ts), the sync pipeline (utils/best-practices.ts),
the skill taxonomy and proficiency scorer, the achievement evaluator
(utils/achievements.ts) and the streak calculator (utils/habit-detector.ts).
Timestamps are modelled as `Int` epoch milliseconds, SQL REAL columns as `ℚ`,
and JavaScript floating-point scores as `ℝ`.
-/

/-- One record of history.jsonl (`HistoryEntrySchema`): display text, epoch-ms
timestamp, project path, optional explicit session id.  The optional
pasted-contents map is modelled by the number of its keys, the only thing the
pipeline reads from it. -/
structure HistoryEntry where
  display : String
  timestamp : Int
  project : String
  sessionId : Option String := none
  pastedCount : Nat := 0
deriving DecidableEq, Inhabited

/-- A processed session (`Session` in src/types). -/
structure Session where
  sessionId : String
  project : String
  startTime : Int
  endTime : Int
  promptCount : Nat
  duration : Int
  firstPrompt : String
  lastPrompt : String
deriving DecidableEq, Inhabited

/-- Stable insertion of an entry into a timestamp-sorted list, placing it
before the first strictly later element. -/
def orderedInsert (e : HistoryEntry) : List HistoryEntry → List HistoryEntry
  | [] => [e]
  | b :: l => if e.timestamp ≤ b.timestamp then e :: b :: l else b :: orderedInsert e l

/-- The stable ascending sort by the comparator
`(a, b) => a.timestamp - b.timestamp` at the top of `groupIntoSessions`
(ECMAScript sort is stable, so any stable sort by timestamp produces the
same sequence). -/
def sortByTimestamp : List HistoryEntry → List HistoryEntry
  | [] => []
  | a :: l => orderedInsert a (sortByTimestamp l)

/-- The `shouldStartNew` test of `groupIntoSessions`: the accumulator `cur` is
the open session (a nonempty list of entries in arrival order); its saved
`sessionId`/`project` are those of its first entry and its `endTime` is the
timestamp of its last entry. -/
def shouldStartNew (gap : Int) (cur : List HistoryEntry) (e : HistoryEntry) : Bool :=
  decide (e.sessionId ≠ cur.headI.sessionId) ||
    decide (e.project ≠ cur.headI.project) ||
    decide (e.timestamp - cur.getLastI.timestamp > gap)

/-- The walk of `groupIntoSessions`, producing the successive groups of
entries (each group becomes one Session).  `cur` is the open accumulator,
always nonempty; a boundary emits it and reopens with the triggering entry,
and the final accumulator is emitted at end of input. -/
def sessionRuns (gap : Int) (cur : List HistoryEntry) :
    List HistoryEntry → List (List HistoryEntry)
  | [] => [cur]
  | e :: rest =>
    if shouldStartNew gap cur e then cur :: sessionRuns gap [e] rest
    else sessionRuns gap (cur ++ [e]) rest

/-- Groups of the sorted entry list; empty input yields no groups. -/
def sessionGroups (gap : Int) : List HistoryEntry → List (List HistoryEntry)
  | [] => []
  | e :: rest => sessionRuns gap [e] rest

/-- Decimal rendering of a natural number, as JavaScript template-literal
interpolation produces for the `auto-` placeholder index. -/
def natDecimal (n : ℕ) : String :=
  if n = 0 then "0" else ((Nat.digits 10 n).reverse.map Nat.digitChar).asString

/-- The synthesized placeholder id `auto-N` for the N-th emitted session. -/
def sessionLabel (idx : ℕ) : String :=
  "auto-" ++ natDecimal idx

/-- JavaScript truthiness of the saved session id in
`currentSession.sessionId || 'auto-...'`: `undefined` and the empty string
both fall back to the placeholder. -/
def synthId : Option String → Bool
  | none => true
  | some s => decide (s = "")

/-- Resolve the stored id of a finalized session:
`currentSession.sessionId || 'auto-N'`. -/
def resolveId (o : Option String) (lbl : String) : String :=
  match o with
  | none => lbl
  | some s => if s = "" then lbl else s

/-- Finalization of one accumulator into a Session record (`sessions.push`
in `groupIntoSessions`); `idx` is `sessions.length` at push time. -/
def mkSession (idx : ℕ) (g : List HistoryEntry) : Session :=
  { sessionId := resolveId g.headI.sessionId (sessionLabel idx)
    project := g.headI.project
    startTime := g.headI.timestamp
    endTime := g.getLastI.timestamp
    promptCount := g.length
    duration := g.getLastI.timestamp - g.headI.timestamp
    firstPrompt := g.headI.display
    lastPrompt := g.getLastI.display }

/-- Finalize the groups in emission order, numbering placeholders from `idx`. -/
def mkSessions (idx : ℕ) : List (List HistoryEntry) → List Session
  | [] => []
  | g :: rest => mkSession idx g :: mkSessions (idx + 1) rest

/-- `groupIntoSessions(entries, sessionGapMs = 30 * 60 * 1000)`: sort by
timestamp, split into groups at explicit-id, project or idle-gap boundaries,
and finalize each group into a Session. -/
def groupIntoSessions (entries : List HistoryEntry)
    (sessionGapMs : Int := 30 * 60 * 1000) : List Session :=
  mkSessions 0 (sessionGroups sessionGapMs (sortByTimestamp entries))

/-- The synthesized (`auto-N`) identifiers of one run, in emission order:
the ids of exactly those output sessions whose group carried no usable
explicit id. -/
def synthIdsFrom (idx : ℕ) : List (List HistoryEntry) → List String
  | [] => []
  | g :: rest =>
    if synthId g.headI.sessionId then sessionLabel idx :: synthIdsFrom (idx + 1) rest
    else synthIdsFrom (idx + 1) rest

/-- All synthesized placeholder ids produced by `groupIntoSessions`. -/
def syntheticSessionIds (entries : List HistoryEntry) (gap : Int) : List String :=
  synthIdsFrom 0 (sessionGroups gap (sortByTimestamp entries))

/-- Skill category of the taxonomy. -/
inductive SkillCategory where
  | framework | language | tool | platform | concept
deriving DecidableEq, Inhabited

/-- One entry of the static skill taxonomy (skill-taxonomy.ts). -/
structure SkillDefinition where
  name : String
  category : SkillCategory
  detectionPatterns : List String
  relatedSkills : List String
  learningPath : List String
deriving DecidableEq, Inhabited

/-- The full `SKILL_TAXONOMY` constant, transcribed from the source. -/
def SKILL_TAXONOMY : List SkillDefinition := [
  ⟨"Next.js", .framework, ["next", "nextjs", "next.js"],
    ["React", "TypeScript", "Node.js"], ["React", "Next.js", "Next.js Advanced"]⟩,
  ⟨"React", .framework, ["react", "react-"],
    ["JavaScript", "TypeScript", "JSX"],
    ["JavaScript", "React", "React Hooks", "React Advanced"]⟩,
  ⟨"Vue", .framework, ["vue", "nuxt"],
    ["JavaScript", "TypeScript"], ["JavaScript", "Vue", "Vue 3", "Nuxt"]⟩,
  ⟨"Angular", .framework, ["angular", "@angular"],
    ["TypeScript", "RxJS"], ["TypeScript", "Angular", "Angular Advanced"]⟩,
  ⟨"Svelte", .framework, ["svelte", "sveltekit"],
    ["JavaScript", "TypeScript"], ["JavaScript", "Svelte", "SvelteKit"]⟩,
  ⟨"Express", .framework, ["express"],
    ["Node.js", "JavaScript"], ["Node.js", "Express", "REST APIs"]⟩,
  ⟨"Fastify", .framework, ["fastify"],
    ["Node.js", "JavaScript"], ["Node.js", "Fastify", "High Performance APIs"]⟩,
  ⟨"NestJS", .framework, ["nest", "@nestjs"],
    ["TypeScript", "Node.js"], ["TypeScript", "NestJS", "Microservices"]⟩,
  ⟨"Rails", .framework, ["rails", "ruby-on-rails"],
    ["Ruby", "ActiveRecord", "PostgreSQL"], ["Ruby", "Rails", "Rails Advanced"]⟩,
  ⟨"TypeScript", .language, ["typescript", ".ts", "tsconfig"],
    ["JavaScript", "Node.js"], ["JavaScript", "TypeScript", "TypeScript Advanced"]⟩,
  ⟨"JavaScript", .language, ["javascript", ".js", "node"],
    ["HTML", "CSS"], ["JavaScript", "ES6+", "Async/Await"]⟩,
  ⟨"Python", .language, ["python", ".py", "pip"],
    ["Django", "Flask", "FastAPI"], ["Python", "Python OOP", "Python Advanced"]⟩,
  ⟨"Ruby", .language, ["ruby", ".rb", "gemfile"],
    ["Rails"], ["Ruby", "Ruby OOP", "Rails"]⟩,
  ⟨"Go", .language, ["golang", "go.mod", "/go/"],
    ["Microservices", "Docker"], ["Go", "Go Concurrency", "Go Advanced"]⟩,
  ⟨"Rust", .language, ["rust", "cargo", ".rs"],
    ["Systems Programming"], ["Rust", "Rust Ownership", "Rust Advanced"]⟩,
  ⟨"Git", .tool, ["git", ".git", "github"],
    ["Version Control"], ["Git Basics", "Git Branching", "Git Advanced"]⟩,
  ⟨"Docker", .tool, ["docker", "dockerfile", "container"],
    ["DevOps", "Kubernetes"], ["Docker", "Docker Compose", "Kubernetes"]⟩,
  ⟨"Webpack", .tool, ["webpack", "webpack.config"],
    ["JavaScript", "Build Tools"], ["Webpack", "Webpack Optimization"]⟩,
  ⟨"Vite", .tool, ["vite", "vite.config"],
    ["JavaScript", "Build Tools"], ["Vite", "Vite Advanced"]⟩,
  ⟨"PostgreSQL", .platform, ["postgres", "postgresql", "psql"],
    ["SQL", "Database Design"], ["SQL", "PostgreSQL", "Database Optimization"]⟩,
  ⟨"MongoDB", .platform, ["mongo", "mongodb"],
    ["NoSQL", "Database Design"], ["MongoDB", "Mongoose", "MongoDB Advanced"]⟩,
  ⟨"Redis", .platform, ["redis"],
    ["Caching", "In-Memory Databases"], ["Redis", "Redis Advanced"]⟩,
  ⟨"AWS", .platform, ["aws", "amazon-web-services", "s3", "ec2", "lambda"],
    ["Cloud", "DevOps"], ["AWS Basics", "AWS Services", "AWS Architecture"]⟩,
  ⟨"Vercel", .platform, ["vercel"],
    ["Next.js", "Deployment"], ["Vercel", "Edge Functions"]⟩,
  ⟨"Vitest", .tool, ["vitest"],
    ["Testing", "JavaScript"], ["Testing Basics", "Vitest", "Advanced Testing"]⟩,
  ⟨"Jest", .tool, ["jest"],
    ["Testing", "JavaScript"], ["Testing Basics", "Jest", "Advanced Testing"]⟩,
  ⟨"AI/ML", .concept, ["ai", "ml", "machine-learning", "neural", "llm"],
    ["Python", "TensorFlow", "PyTorch"], ["ML Basics", "Deep Learning", "Production ML"]⟩,
  ⟨"Web Audio", .concept, ["audio", "tone.js", "web-audio", "sound", "music"],
    ["JavaScript", "Signal Processing"],
    ["Web Audio API", "Audio Processing", "Music Theory"]⟩,
  ⟨"Claude Code", .tool, ["claude", "claude-code", "anthropic"],
    ["AI-Assisted Development", "Prompt Engineering"],
    ["Claude Basics", "Prompt Optimization", "Claude Advanced"]⟩]

/-- ASCII lower-casing of one character, as `String.prototype.toLowerCase`
acts on the characters appearing in project paths. -/
def lowerChar (c : Char) : Char :=
  if c.toNat ≥ 65 ∧ c.toNat ≤ 90 then Char.ofNat (c.toNat + 32) else c

/-- Lower-case a whole string (`path.toLowerCase()`). -/
def lowerStr (s : String) : String :=
  (s.data.map lowerChar).asString

/-- Substring test on character lists (`String.prototype.includes`). -/
def charsContain (pat : List Char) : List Char → Bool
  | [] => pat.isEmpty
  | c :: rest => pat.isPrefixOf (c :: rest) || charsContain pat rest

/-- Substring test on strings. -/
def strIncludes (s pat : String) : Bool :=
  charsContain pat.data s.data

/-- `detectSkillsFromPath`: lower-case the path, keep every taxonomy skill one
of whose detection patterns occurs in it; each matching skill is pushed once
(the inner loop breaks at the first matching pattern), in taxonomy order. -/
def detectSkillsFromPath (projectPath : String) : List String :=
  (SKILL_TAXONOMY.filter fun skill =>
    skill.detectionPatterns.any fun pat => strIncludes (lowerStr projectPath) (lowerStr pat)).map
    (·.name)

/-- `getSkillDefinition`: case-insensitive lookup of a taxonomy entry. -/
def getSkillDefinition (skillName : String) : Option SkillDefinition :=
  SKILL_TAXONOMY.find? fun s => lowerStr s.name = lowerStr skillName

theorem headI_mem {α : Type _} [Inhabited α] {l : List α} (h : l ≠ []) : l.headI ∈ l := by
  cases l with
  | nil => exact absurd rfl h
  | cons a t => exact List.mem_cons_self a t

theorem getLastI_mem {α : Type _} [Inhabited α] {l : List α} (h : l ≠ []) : l.getLastI ∈ l := by
  rw [List.getLastI_eq_getLast?]
  cases hl : l.getLast? with
  | none => exact absurd (List.getLast?_eq_none_iff.mp hl) h
  | some a => exact List.mem_of_mem_getLast? hl

theorem sessionRuns_flatten (gap : Int) (l cur : List HistoryEntry) :
    (sessionRuns gap cur l).flatten = cur ++ l := by
  induction l generalizing cur with
  | nil => simp [sessionRuns]
  | cons e rest ih =>
    by_cases hb : shouldStartNew gap cur e
    · simp [sessionRuns, hb, ih]
    · simp [sessionRuns, hb, ih (cur ++ [e])]

theorem sessionRuns_ne_nil (gap : Int) (l cur : List HistoryEntry) (hcur : cur ≠ []) :
    ∀ g ∈ sessionRuns gap cur l, g ≠ [] := by
  induction l generalizing cur with
  | nil => simpa [sessionRuns] using hcur
  | cons e rest ih =>
    intro g hg
    by_cases hb : shouldStartNew gap cur e
    · simp only [sessionRuns, hb, if_true, List.mem_cons] at hg
      rcases hg with rfl | hg
      · exact hcur
      · exact ih [e] (by simp) g hg
    · simp only [sessionRuns, hb, if_false] at hg
      exact ih (cur ++ [e]) (by simp) g hg

theorem sessionGroups_ne_nil (gap : Int) (l : List HistoryEntry) :
    ∀ g ∈ sessionGroups gap l, g ≠ [] := by
  cases l with
  | nil => simp [sessionGroups]
  | cons e rest => exact sessionRuns_ne_nil gap rest [e] (by simp)

theorem sessionGroups_flatten (gap : Int) (l : List HistoryEntry) :
    (sessionGroups gap l).flatten = l := by
  cases l with
  | nil => simp [sessionGroups]
  | cons e rest => simpa [sessionGroups] using sessionRuns_flatten gap rest [e]

theorem mem_mkSessions {s : Session} :
    ∀ (gs : List (List HistoryEntry)) (idx : ℕ), s ∈ mkSessions idx gs →
      ∃ j g, g ∈ gs ∧ s = mkSession j g := by
  intro gs
  induction gs with
  | nil => intro idx h; simp [mkSessions] at h
  | cons g rest ih =>
    intro idx h
    simp only [mkSessions, List.mem_cons] at h
    rcases h with rfl | h
    · exact ⟨idx, g, by simp⟩
    · obtain ⟨j, g', hg', hs⟩ := ih (idx + 1) h
      exact ⟨j, g', by simp [hg'], hs⟩

theorem mkSessions_map_promptCount :
    ∀ (gs : List (List HistoryEntry)) (idx : ℕ),
      (mkSessions idx gs).map Session.promptCount = gs.map List.length := by
  intro gs
  induction gs with
  | nil => intro idx; simp [mkSessions]
  | cons g rest ih => intro idx; simp [mkSessions, mkSession, ih (idx + 1)]

theorem mem_orderedInsert {x e : HistoryEntry} :
    ∀ {l : List HistoryEntry}, x ∈ orderedInsert e l → x = e ∨ x ∈ l := by
  intro l
  induction l with
  | nil => intro h; simpa [orderedInsert] using h
  | cons b t ih =>
    intro h
    by_cases hc : e.timestamp ≤ b.timestamp
    · rw [orderedInsert, if_pos hc, List.mem_cons] at h
      rcases h with rfl | h
      · exact Or.inl rfl
      · exact Or.inr h
    · rw [orderedInsert, if_neg hc, List.mem_cons] at h
      rcases h with rfl | h
      · exact Or.inr (List.mem_cons_self _ _)
      · rcases ih h with h' | h'
        · exact Or.inl h'
        · exact Or.inr (List.mem_cons_of_mem _ h')

theorem pairwise_orderedInsert (e : HistoryEntry) :
    ∀ (l : List HistoryEntry), l.Pairwise (fun a b => a.timestamp ≤ b.timestamp) →
      (orderedInsert e l).Pairwise (fun a b => a.timestamp ≤ b.timestamp) := by
  intro l
  induction l with
  | nil => intro _; simp [orderedInsert]
  | cons b t ih =>
    intro hp
    rw [List.pairwise_cons] at hp
    by_cases hc : e.timestamp ≤ b.timestamp
    · rw [orderedInsert, if_pos hc, List.pairwise_cons]
      refine ⟨?_, List.pairwise_cons.mpr hp⟩
      intro x hx
      rw [List.mem_cons] at hx
      rcases hx with rfl | hx
      · exact hc
      · exact le_trans hc (hp.1 x hx)
    · rw [orderedInsert, if_neg hc, List.pairwise_cons]
      refine ⟨?_, ih hp.2⟩
      intro x hx
      rcases mem_orderedInsert hx with rfl | hx
      · omega
      · exact hp.1 x hx

theorem sortByTimestamp_sorted (es : List HistoryEntry) :
    (sortByTimestamp es).Pairwise (fun a b => a.timestamp ≤ b.timestamp) := by
  induction es with
  | nil => simp [sortByTimestamp]
  | cons a l ih => exact pairwise_orderedInsert a _ ih

theorem length_orderedInsert (e : HistoryEntry) :
    ∀ (l : List HistoryEntry), (orderedInsert e l).length = l.length + 1 := by
  intro l
  induction l with
  | nil => simp [orderedInsert]
  | cons b t ih =>
    by_cases hc : e.timestamp ≤ b.timestamp
    · rw [orderedInsert, if_pos hc]; rfl
    · rw [orderedInsert, if_neg hc]; simp [ih]

theorem sortByTimestamp_length (es : List HistoryEntry) :
    (sortByTimestamp es).length = es.length := by
  induction es with
  | nil => rfl
  | cons a l ih => rw [sortByTimestamp, length_orderedInsert, ih]; rfl

theorem sessionGroups_pairwise (gap : Int) (l : List HistoryEntry)
    (hl : l.Pairwise (fun a b => a.timestamp ≤ b.timestamp)) :
    (sessionGroups gap l).Pairwise
      (fun g h => ∀ a ∈ g, ∀ b ∈ h, a.timestamp ≤ b.timestamp) := by
  have : (sessionGroups gap l).flatten.Pairwise
      (fun a b => a.timestamp ≤ b.timestamp) := by
    rw [sessionGroups_flatten]; exact hl
  exact (List.pairwise_flatten.mp this).2

theorem mkSessions_pairwise
    (gs : List (List HistoryEntry)) (idx : ℕ)
    (hne : ∀ g ∈ gs, g ≠ [])
    (hp : gs.Pairwise (fun g h => ∀ a ∈ g, ∀ b ∈ h, a.timestamp ≤ b.timestamp)) :
    (mkSessions idx gs).Pairwise (fun s t => s.endTime ≤ t.startTime) := by
  induction gs generalizing idx with
  | nil => simp [mkSessions]
  | cons g rest ih =>
    rw [List.pairwise_cons] at hp
    simp only [mkSessions, List.pairwise_cons]
    constructor
    · intro t ht
      obtain ⟨j, h, hh, rfl⟩ := mem_mkSessions rest (idx + 1) ht
      have hgne : g ≠ [] := hne g (by simp)
      have hhne : h ≠ [] := hne h (by simp [hh])
      exact hp.1 h hh g.getLastI (getLastI_mem hgne) h.headI (headI_mem hhne)
    · exact ih (idx + 1) (fun g' hg' => hne g' (by simp [hg'])) hp.2

/-- Relation between consecutive entries accepted into the same open session:
matching id and project, and an idle gap of at most `gap`. -/
def sameRun (gap : Int) (a b : HistoryEntry) : Prop :=
  b.sessionId = a.sessionId ∧ b.project = a.project ∧ b.timestamp - a.timestamp ≤ gap

/-- Relation across a session boundary, stated on the adjacent entries (last
of the closed group, first of the next): the id or the project changed, or
the idle gap was exceeded. -/
def runBreak (gap : Int) (g h : List HistoryEntry) : Prop :=
  h.headI.sessionId ≠ g.getLastI.sessionId ∨ h.headI.project ≠ g.getLastI.project ∨
    h.headI.timestamp - g.getLastI.timestamp > gap

theorem getLast?_eq_getLastI {α : Type _} [Inhabited α] {l : List α} (h : l ≠ []) :
    l.getLast? = some l.getLastI := by
  cases hl : l.getLast? with
  | none => exact absurd (List.getLast?_eq_none_iff.mp hl) h
  | some a => rw [List.getLastI_eq_getLast?, hl]

theorem headI_append {α : Type _} [Inhabited α] {l l' : List α} (h : l ≠ []) :
    (l ++ l').headI = l.headI := by
  cases l with
  | nil => exact absurd rfl h
  | cons a t => simp

theorem chain_sameRun_headI_getLastI {gap : Int} {l : List HistoryEntry}
    (hl : l ≠ []) (hc : List.Chain' (sameRun gap) l) :
    l.getLastI.sessionId = l.headI.sessionId ∧ l.getLastI.project = l.headI.project := by
  induction l with
  | nil => exact absurd rfl hl
  | cons a t ih =>
    cases t with
    | nil => simp [List.getLastI]
    | cons b t' =>
      rw [List.chain'_cons] at hc
      have h1 : (b :: t').getLastI.sessionId = b.sessionId ∧
          (b :: t').getLastI.project = b.project := ih (by simp) hc.2
      have h2 : (a :: b :: t').getLastI = (b :: t').getLastI := by
        rw [List.getLastI_eq_getLast?, List.getLastI_eq_getLast?, List.getLast?_cons_cons]
      rw [h2]
      exact ⟨h1.1.trans hc.1.1, h1.2.trans hc.1.2.1⟩

theorem chain_sameRun_append {gap : Int} {cur : List HistoryEntry} {e : HistoryEntry}
    (hcur : cur ≠ []) (hc : List.Chain' (sameRun gap) cur)
    (hb : shouldStartNew gap cur e = false) :
    List.Chain' (sameRun gap) (cur ++ [e]) := by
  have hparts : e.sessionId = cur.headI.sessionId ∧ e.project = cur.headI.project ∧
      e.timestamp - cur.getLastI.timestamp ≤ gap := by
    simp only [shouldStartNew, Bool.or_eq_false_iff, decide_eq_false_iff_not,
      not_not, not_lt] at hb
    exact ⟨hb.1.1, hb.1.2, hb.2⟩
  have huni := chain_sameRun_headI_getLastI hcur hc
  rw [List.chain'_append]
  refine ⟨hc, List.chain'_singleton e, ?_⟩
  intro x hx y hy
  rw [getLast?_eq_getLastI hcur] at hx
  simp only [Option.mem_def, Option.some.injEq] at hx
  simp only [List.head?_cons, Option.mem_def, Option.some.injEq] at hy
  subst hx; subst hy
  exact ⟨hparts.1.trans huni.1.symm, hparts.2.1.trans huni.2.symm, hparts.2.2⟩

theorem sessionRuns_never_nil (gap : Int) (l cur : List HistoryEntry) :
    sessionRuns gap cur l ≠ [] := by
  induction l generalizing cur with
  | nil => simp [sessionRuns]
  | cons e rest ih =>
    by_cases hb : shouldStartNew gap cur e
    · simp [sessionRuns, hb]
    · simpa [sessionRuns, hb] using ih (cur ++ [e])

theorem sessionRuns_headI_headI (gap : Int) (l : List HistoryEntry)
    {cur : List HistoryEntry} (hcur : cur ≠ []) :
    (sessionRuns gap cur l).headI.headI = cur.headI := by
  induction l generalizing cur with
  | nil => simp [sessionRuns]
  | cons e rest ih =>
    by_cases hb : shouldStartNew gap cur e
    · simp [sessionRuns, hb]
    · rw [sessionRuns, if_neg hb, ih (by simp), headI_append hcur]

theorem sessionRuns_chain_within (gap : Int) (l : List HistoryEntry) :
    ∀ (cur : List HistoryEntry), cur ≠ [] → List.Chain' (sameRun gap) cur →
      ∀ g ∈ sessionRuns gap cur l, List.Chain' (sameRun gap) g := by
  induction l with
  | nil =>
    intro cur _ hchain g hg
    simp only [sessionRuns, List.mem_singleton] at hg
    exact hg ▸ hchain
  | cons e rest ih =>
    intro cur hcur hchain g hg
    by_cases hb : shouldStartNew gap cur e
    · simp only [sessionRuns, hb, if_true, List.mem_cons] at hg
      rcases hg with rfl | hg
      · exact hchain
      · exact ih [e] (by simp) (List.chain'_singleton e) g hg
    · rw [sessionRuns, if_neg hb] at hg
      exact ih (cur ++ [e]) (by simp)
        (chain_sameRun_append hcur hchain (Bool.not_eq_true _ ▸ hb)) g hg

theorem sessionRuns_chain_between (gap : Int) (l : List HistoryEntry) :
    ∀ (cur : List HistoryEntry), cur ≠ [] → List.Chain' (sameRun gap) cur →
      List.Chain' (runBreak gap) (sessionRuns gap cur l) := by
  induction l with
  | nil => intro cur _ _; simp [sessionRuns]
  | cons e rest ih =>
    intro cur hcur hchain
    by_cases hb : shouldStartNew gap cur e
    · rw [sessionRuns, if_pos hb, List.chain'_cons']
      constructor
      · intro y hy
        have hne := sessionRuns_never_nil gap rest [e]
        have hhead : (sessionRuns gap [e] rest).head? =
            some (sessionRuns gap [e] rest).headI := by
          cases hl : sessionRuns gap [e] rest with
          | nil => exact absurd hl hne
          | cons a t => simp
        rw [hhead] at hy
        simp only [Option.mem_def, Option.some.injEq] at hy
        subst hy
        have hy1 : (sessionRuns gap [e] rest).headI.headI = e :=
          sessionRuns_headI_headI gap rest (by simp)
        have huni := chain_sameRun_headI_getLastI hcur hchain
        simp only [shouldStartNew, Bool.or_eq_true, decide_eq_true_eq] at hb
        unfold runBreak
        rw [hy1, huni.1, huni.2]
        rcases hb with (h | h) | h
        · exact Or.inl h
        · exact Or.inr (Or.inl h)
        · exact Or.inr (Or.inr h)
      · exact ih [e] (by simp) (List.chain'_singleton e)
    · rw [sessionRuns, if_neg hb]
      exact ih (cur ++ [e]) (by simp)
        (chain_sameRun_append hcur hchain (Bool.not_eq_true _ ▸ hb))

theorem sessionGroups_chain_within (gap : Int) (l : List HistoryEntry) :
    ∀ g ∈ sessionGroups gap l, List.Chain' (sameRun gap) g := by
  cases l with
  | nil => simp [sessionGroups]
  | cons e rest =>
    exact sessionRuns_chain_within gap rest [e] (by simp) (List.chain'_singleton e)

theorem sessionGroups_chain_between (gap : Int) (l : List HistoryEntry) :
    List.Chain' (runBreak gap) (sessionGroups gap l) := by
  cases l with
  | nil => simp [sessionGroups]
  | cons e rest =>
    exact sessionRuns_chain_between gap rest [e] (by simp) (List.chain'_singleton e)

theorem asString_inj {l l' : List Char} (h : l.asString = l'.asString) : l = l' := by
  have := congrArg String.data h
  simpa [List.asString] using this

theorem digitChar_inj_of_lt :
    ∀ a < 10, ∀ b < 10, Nat.digitChar a = Nat.digitChar b → a = b := by decide

theorem map_digitChar_inj :
    ∀ (l1 l2 : List ℕ), (∀ x ∈ l1, x < 10) → (∀ x ∈ l2, x < 10) →
      l1.map Nat.digitChar = l2.map Nat.digitChar → l1 = l2 := by
  intro l1
  induction l1 with
  | nil => intro l2 _ _ h; cases l2 <;> simp_all
  | cons a t ih =>
    intro l2 h1 h2 h
    cases l2 with
    | nil => simp at h
    | cons b t2 =>
      simp only [List.map_cons, List.cons.injEq] at h
      have ha : a = b := digitChar_inj_of_lt a (h1 a (by simp)) b (h2 b (by simp)) h.1
      have ht : t = t2 := ih t2 (fun x hx => h1 x (by simp [hx]))
        (fun x hx => h2 x (by simp [hx])) h.2
      rw [ha, ht]

theorem natDecimal_inj {m n : ℕ} (h : natDecimal m = natDecimal n) : m = n := by
  unfold natDecimal at h
  by_cases hm : m = 0 <;> by_cases hn : n = 0
  · omega
  · rw [if_pos hm, if_neg hn] at h
    have hd := asString_inj h.symm
    cases hdig : Nat.digits 10 n with
    | nil => exact absurd (Nat.digits_eq_nil_iff_eq_zero.mp hdig) hn
    | cons d t =>
      cases t with
      | nil =>
        simp only [hdig, List.reverse_cons, List.reverse_nil, List.nil_append,
          List.map_cons, List.map_nil] at hd
        have hdlt : d < 10 := @Nat.digits_lt_base 10 n d (by norm_num) (by rw [hdig]; simp)
        have hd0 : d = 0 := by
          have := hd
          simp only [List.cons.injEq] at this
          exact digitChar_inj_of_lt d hdlt 0 (by norm_num)
            (this.1.trans (show ('0' : Char) = Nat.digitChar 0 by decide))
        have hnd : n = d := by
          conv_lhs => rw [← Nat.ofDigits_digits 10 n]
          rw [hdig]; simp [Nat.ofDigits]
        omega
      | cons d2 t2 =>
        rw [hdig] at hd
        have : ((d :: d2 :: t2).reverse.map Nat.digitChar).length = 1 := by
          rw [hd]; rfl
        simp at this
  · rw [if_neg hm, if_pos hn] at h
    have hd := asString_inj h
    cases hdig : Nat.digits 10 m with
    | nil => exact absurd (Nat.digits_eq_nil_iff_eq_zero.mp hdig) hm
    | cons d t =>
      cases t with
      | nil =>
        simp only [hdig, List.reverse_cons, List.reverse_nil, List.nil_append,
          List.map_cons, List.map_nil] at hd
        have hdlt : d < 10 := @Nat.digits_lt_base 10 m d (by norm_num) (by rw [hdig]; simp)
        have hd0 : d = 0 := by
          simp only [List.cons.injEq] at hd
          exact digitChar_inj_of_lt d hdlt 0 (by norm_num)
            (hd.1.trans (show ('0' : Char) = Nat.digitChar 0 by decide))
        have hmd : m = d := by
          conv_lhs => rw [← Nat.ofDigits_digits 10 m]
          rw [hdig]; simp [Nat.ofDigits]
        omega
      | cons d2 t2 =>
        rw [hdig] at hd
        have : ((d :: d2 :: t2).reverse.map Nat.digitChar).length = 1 := by
          rw [hd]; rfl
        simp at this
  · rw [if_neg hm, if_neg hn] at h
    have hd := asString_inj h
    have hrev := List.reverse_injective (map_digitChar_inj _ _
      (fun x hx => Nat.digits_lt_base (by norm_num) (List.mem_reverse.mp hx))
      (fun x hx => Nat.digits_lt_base (by norm_num) (List.mem_reverse.mp hx)) hd)
    calc m = Nat.ofDigits 10 (Nat.digits 10 m) := (Nat.ofDigits_digits 10 m).symm
    _ = Nat.ofDigits 10 (Nat.digits 10 n) := by rw [hrev]
    _ = n := Nat.ofDigits_digits 10 n

theorem sessionLabel_inj {m n : ℕ} (h : sessionLabel m = sessionLabel n) : m = n := by
  unfold sessionLabel at h
  have := congrArg String.data h
  rw [String.data_append, String.data_append] at this
  exact natDecimal_inj (congrArg List.asString (List.append_cancel_left this))

theorem mem_synthIdsFrom {x : String} :
    ∀ (gs : List (List HistoryEntry)) (idx : ℕ), x ∈ synthIdsFrom idx gs →
      ∃ j, idx ≤ j ∧ x = sessionLabel j := by
  intro gs
  induction gs with
  | nil => intro idx h; simp [synthIdsFrom] at h
  | cons g rest ih =>
    intro idx h
    by_cases hs : synthId g.headI.sessionId
    · rw [synthIdsFrom, if_pos hs, List.mem_cons] at h
      rcases h with rfl | h
      · exact ⟨idx, le_refl idx, rfl⟩
      · obtain ⟨j, hj, hx⟩ := ih (idx + 1) h
        exact ⟨j, by omega, hx⟩
    · rw [synthIdsFrom, if_neg hs] at h
      obtain ⟨j, hj, hx⟩ := ih (idx + 1) h
      exact ⟨j, by omega, hx⟩

theorem synthIdsFrom_nodup :
    ∀ (gs : List (List HistoryEntry)) (idx : ℕ), (synthIdsFrom idx gs).Nodup := by
  intro gs
  induction gs with
  | nil => intro idx; simp [synthIdsFrom]
  | cons g rest ih =>
    intro idx
    by_cases hs : synthId g.headI.sessionId
    · rw [synthIdsFrom, if_pos hs, List.nodup_cons]
      refine ⟨fun hmem => ?_, ih (idx + 1)⟩
      obtain ⟨j, hj, hx⟩ := mem_synthIdsFrom rest (idx + 1) hmem
      have := sessionLabel_inj hx
      omega
    · rw [synthIdsFrom, if_neg hs]
      exact ih (idx + 1)

theorem synthIdsFrom_sublist :
    ∀ (gs : List (List HistoryEntry)) (idx : ℕ),
      (synthIdsFrom idx gs).Sublist ((mkSessions idx gs).map Session.sessionId) := by
  intro gs
  induction gs with
  | nil => intro idx; simp [synthIdsFrom, mkSessions]
  | cons g rest ih =>
    intro idx
    by_cases hs : synthId g.headI.sessionId
    · rw [synthIdsFrom, if_pos hs]
      have hid : (mkSession idx g).sessionId = sessionLabel idx := by
        unfold mkSession resolveId
        cases ho : g.headI.sessionId with
        | none => rfl
        | some s =>
          rw [ho] at hs
          simp only [synthId, decide_eq_true_eq] at hs
          simp [hs]
      simp only [mkSessions, List.map_cons, hid]
      exact (ih (idx + 1)).cons₂ (sessionLabel idx)
    · rw [synthIdsFrom, if_neg hs]
      simp only [mkSessions, List.map_cons]
      exact (ih (idx + 1)).cons _

/-- A row of the `sessions` table (schema.ts); `created_at` is omitted, being
set by the database and never read back by the analytics. -/
structure SessionRow where
  project : String
  start_time : Int
  end_time : Int
  prompt_count : Int
  duration_ms : Int
  first_prompt : String
  last_prompt : String
deriving DecidableEq, Inhabited

/-- A row of the `prompts` table. -/
structure PromptRow where
  session_id : String
  project : String
  display : String
  timestamp : Int
  pasted_contents_count : Nat
deriving DecidableEq, Inhabited

/-- A row of the `projects` table; the REAL `total_cost` column is a rational. -/
structure ProjectRow where
  first_seen : Int
  last_active : Int
  total_prompts : Int
  total_sessions : Int
  total_duration_ms : Int
  lines_added : Int
  lines_removed : Int
  total_cost : ℚ
  input_tokens : Int
  output_tokens : Int
  cache_creation_tokens : Int
  cache_read_tokens : Int
deriving DecidableEq, Inhabited

/-- A row of the `achievements` table; `metadata` is omitted, being write-only
JSON never read back by the analytics. -/
structure AchievementRow where
  achType : String
  title : String
  description : String
  icon : String
  unlocked_at : Int
deriving DecidableEq, Inhabited

/-- The SQLite store: each table is an association list keyed by its primary
key (insertion order models rowid order), plus the metadata key-value table
whose `last_sync_time` value is held as an epoch-ms integer. -/
structure Db where
  sessions : List (String × SessionRow) := []
  prompts : List PromptRow := []
  projects : List (String × ProjectRow) := []
  achievements : List (String × AchievementRow) := []
  metadata : List (String × Int) := []
deriving DecidableEq, Inhabited

/-- The empty store, as produced by `initializeSchema` on a fresh file. -/
def emptyDb : Db := {}

/-- Keyed upsert on an association table: on a primary-key conflict apply the
update `f` to the stored row, otherwise insert `ins` at the end. -/
def upsertAssoc {β : Type _} (k : String) (f : β → β) (ins : β)
    (l : List (String × β)) : List (String × β) :=
  match l.lookup k with
  | some _ => l.map fun p => if p.1 = k then (p.1, f p.2) else p
  | none => l ++ [(k, ins)]

/-- `upsertSession` (schema.ts): insert, or on conflict update `end_time`,
`prompt_count`, `duration_ms` and `last_prompt` only. -/
def upsertSession (db : Db) (s : Session) : Db :=
  let onConflict : SessionRow → SessionRow := fun r =>
    { r with
      end_time := s.endTime
      prompt_count := (s.promptCount : Int)
      duration_ms := s.duration
      last_prompt := s.lastPrompt }
  let fresh : SessionRow :=
    { project := s.project
      start_time := s.startTime
      end_time := s.endTime
      prompt_count := (s.promptCount : Int)
      duration_ms := s.duration
      first_prompt := s.firstPrompt
      last_prompt := s.lastPrompt }
  { db with sessions := upsertAssoc s.sessionId onConflict fresh db.sessions }

/-- `insertPrompt` (schema.ts): plain insert. -/
def insertPrompt (db : Db) (p : PromptRow) : Db :=
  { db with prompts := db.prompts ++ [p] }

/-- The argument record of `upsertProjectStats`. -/
structure ProjectStatsInput where
  projectPath : String
  firstSeen : Int
  lastActive : Int
  totalPrompts : Int
  totalSessions : Int
  totalDuration : Int
  linesAdded : Int
  linesRemoved : Int
  totalCost : ℚ
  inputTokens : Int
  outputTokens : Int
  cacheCreationTokens : Int
  cacheReadTokens : Int
deriving DecidableEq, Inhabited

/-- `upsertProjectStats` (schema.ts): insert, or on conflict overwrite every
column except `first_seen` with the excluded (incoming) values. -/
def upsertProjectStats (db : Db) (st : ProjectStatsInput) : Db :=
  let onConflict : ProjectRow → ProjectRow := fun r =>
    { r with
      last_active := st.lastActive
      total_prompts := st.totalPrompts
      total_sessions := st.totalSessions
      total_duration_ms := st.totalDuration
      lines_added := st.linesAdded
      lines_removed := st.linesRemoved
      total_cost := st.totalCost
      input_tokens := st.inputTokens
      output_tokens := st.outputTokens
      cache_creation_tokens := st.cacheCreationTokens
      cache_read_tokens := st.cacheReadTokens }
  let fresh : ProjectRow :=
    { first_seen := st.firstSeen
      last_active := st.lastActive
      total_prompts := st.totalPrompts
      total_sessions := st.totalSessions
      total_duration_ms := st.totalDuration
      lines_added := st.linesAdded
      lines_removed := st.linesRemoved
      total_cost := st.totalCost
      input_tokens := st.inputTokens
      output_tokens := st.outputTokens
      cache_creation_tokens := st.cacheCreationTokens
      cache_read_tokens := st.cacheReadTokens }
  { db with projects := upsertAssoc st.projectPath onConflict fresh db.projects }

/-- `setMetadata` (schema.ts). -/
def setMetadata (db : Db) (k : String) (v : Int) : Db :=
  { db with metadata := upsertAssoc k (fun _ => v) v db.metadata }

/-- The per-project fields of `.claude.json` consumed by the sync (all
defaulting to zero under the zod schema). -/
structure ProjectMetrics where
  lastCost : ℚ := 0
  lastLinesAdded : Int := 0
  lastLinesRemoved : Int := 0
  lastTotalInputTokens : Int := 0
  lastTotalOutputTokens : Int := 0
  lastTotalCacheCreationInputTokens : Int := 0
  lastTotalCacheReadInputTokens : Int := 0
deriving DecidableEq, Inhabited

/-- The per-project rollup accumulated over the freshly built sessions in
`syncData` (a JavaScript Map in insertion order). -/
structure SessionRollup where
  firstSeen : Int
  lastActive : Int
  totalPrompts : Int
  totalSessions : Int
  totalDuration : Int
deriving DecidableEq, Inhabited

/-- One step of the rollup loop of `syncData`. -/
def rollupStep (acc : List (String × SessionRollup)) (s : Session) :
    List (String × SessionRollup) :=
  match acc.lookup s.project with
  | some _ =>
    acc.map fun p =>
      if p.1 = s.project then
        (p.1,
          { p.2 with
            lastActive := max p.2.lastActive s.endTime
            totalPrompts := p.2.totalPrompts + (s.promptCount : Int)
            totalSessions := p.2.totalSessions + 1
            totalDuration := p.2.totalDuration + s.duration })
      else p
  | none =>
    acc ++ [(s.project,
      { firstSeen := s.startTime
        lastActive := s.endTime
        totalPrompts := (s.promptCount : Int)
        totalSessions := 1
        totalDuration := s.duration })]

/-- The whole rollup map computed from the session list. -/
def sessionRollups (sessions : List Session) : List (String × SessionRollup) :=
  sessions.foldl rollupStep []

/-- First-occurrence deduplication, as iterating a JavaScript Set built from
concatenated key arrays. -/
def dedupKeys : List String → List String
  | [] => []
  | k :: rest => if k ∈ rest then dedupKeys rest else k :: dedupKeys rest

/-- Insertion-ordered deduplication keeping the first occurrence. -/
def firstOccurrences (l : List String) : List String :=
  (dedupKeys l.reverse).reverse

/-- The result record of `syncData`. -/
structure SyncResult where
  promptsProcessed : Nat
  sessionsCreated : Nat
  projectsUpdated : Nat
  errors : List String
  lastSyncTime : Int
deriving DecidableEq, Inhabited

/-- `syncData` (best-practices.ts): read the watermark, keep only history
entries strictly newer than it, group them into sessions, upsert each
session, insert a prompt row for each entry whose owning session is found by
timestamp containment and project match, replace each involved project's
stats row by the new rollup merged with the config metrics, and advance the
watermark to `now`.  The history file and the parsed `.claude.json` project
map are passed as values, and the clock reading `new Date()` as `now`. -/
def syncData (history : List HistoryEntry) (config : List (String × ProjectMetrics))
    (now : Int) (db : Db) : Db × SyncResult :=
  let lastSync := db.metadata.lookup "last_sync_time"
  let entriesToProcess := match lastSync with
    | some t => history.filter fun e => decide (t < e.timestamp)
    | none => history
  let sessions := groupIntoSessions entriesToProcess
  let db1 := sessions.foldl upsertSession db
  let matched := entriesToProcess.filterMap fun e =>
    (sessions.find? fun s =>
      decide (s.startTime ≤ e.timestamp) && decide (e.timestamp ≤ s.endTime) &&
        decide (s.project = e.project)).map
      fun s =>
        ({ session_id := s.sessionId
           project := e.project
           display := e.display
           timestamp := e.timestamp
           pasted_contents_count := e.pastedCount } : PromptRow)
  let db2 := matched.foldl insertPrompt db1
  let rollups := sessionRollups sessions
  let allProjects := firstOccurrences (rollups.map Prod.fst ++ config.map Prod.fst)
  let db3 := allProjects.foldl
    (fun d p =>
      let sessionData := rollups.lookup p
      let configData := config.lookup p
      upsertProjectStats d
        { projectPath := p
          firstSeen := (sessionData.map (·.firstSeen)).getD now
          lastActive := (sessionData.map (·.lastActive)).getD now
          totalPrompts := (sessionData.map (·.totalPrompts)).getD 0
          totalSessions := (sessionData.map (·.totalSessions)).getD 0
          totalDuration := (sessionData.map (·.totalDuration)).getD 0
          linesAdded := (configData.map (·.lastLinesAdded)).getD 0
          linesRemoved := (configData.map (·.lastLinesRemoved)).getD 0
          totalCost := (configData.map (·.lastCost)).getD 0
          inputTokens := (configData.map (·.lastTotalInputTokens)).getD 0
          outputTokens := (configData.map (·.lastTotalOutputTokens)).getD 0
          cacheCreationTokens := (configData.map (·.lastTotalCacheCreationInputTokens)).getD 0
          cacheReadTokens := (configData.map (·.lastTotalCacheReadInputTokens)).getD 0 })
    db2
  let db4 := setMetadata db3 "last_sync_time" now
  (db4,
    { promptsProcessed := matched.length
      sessionsCreated := sessions.length
      projectsUpdated := allProjects.length
      errors := []
      lastSyncTime := now })

/-- Calendar day index of an epoch-ms timestamp, as `DATE(start_time)`
buckets timestamps into UTC days. -/
def dayOfTimestamp (t : Int) : Int :=
  t.ediv 86400000

/-- Descending insertion keeping one copy of each value (`SELECT DISTINCT
... ORDER BY date DESC`). -/
def insertDayDesc (d : Int) : List Int → List Int
  | [] => [d]
  | e :: rest =>
    if d > e then d :: e :: rest
    else if d = e then e :: rest
    else e :: insertDayDesc d rest

/-- The distinct values of a list, sorted descending. -/
def distinctDaysDesc (l : List Int) : List Int :=
  l.foldr insertDayDesc []

/-- The `recentDays` query of `calculateStreak`: distinct activity dates of
sessions started within the trailing 90 days, newest first. -/
def recentActivityDays (sessions : List (String × SessionRow)) (now : Int) : List Int :=
  distinctDaysDesc
    ((sessions.filter fun p => decide (now - 7776000000 ≤ p.2.start_time)).map
      fun p => dayOfTimestamp p.2.start_time)

/-- The current-streak loop of `calculateStreak`: position `i` of the
descending date list must hold exactly `today - i`, and the count stops at
the first mismatch. -/
def currentRunLength (expected : Int) : List Int → Nat
  | [] => 0
  | d :: rest =>
    if d = expected then currentRunLength (expected - 1) rest + 1 else 0

/-- The longest-streak loop of `calculateStreak`: scan consecutive-date pairs
of the descending list, growing a temporary run on a difference of exactly
one day. -/
def longestRunAux (prev : Int) (tempStreak longest : Nat) : List Int → Nat
  | [] => longest
  | d :: rest =>
    if prev - d = 1 then longestRunAux d (tempStreak + 1) (max longest (tempStreak + 1)) rest
    else longestRunAux d 1 longest rest

/-- The streak summary returned by `calculateStreak`. -/
structure StreakInfo where
  current : Nat
  longest : Nat
  lastActive : Option Int
deriving DecidableEq, Inhabited

/-- `calculateStreak` (habit-detector.ts): current streak counts
consecutive distinct activity days ending today; longest streak is the
longest consecutive run in the 90-day window, floored by the current one;
`lastActive` is the most recent activity day. -/
def calculateStreak (sessions : List (String × SessionRow)) (now : Int) : StreakInfo :=
  match recentActivityDays sessions now with
  | [] => ⟨0, 0, none⟩
  | d :: rest =>
    let current := currentRunLength (dayOfTimestamp now) (d :: rest)
    let longest := longestRunAux d 1 0 rest
    ⟨current, max longest current, some d⟩

/-- The ordinal proficiency level. -/
inductive ProficiencyLevel where
  | beginner | intermediate | advanced | expert
deriving DecidableEq, Inhabited

/-- The metrics record consumed by `calculateProficiencyScore`; JavaScript
numbers are modelled as reals. -/
structure ProficiencyMetrics where
  usageCount : ℝ
  daysSinceFirstUse : ℝ
  consistency : ℝ
  depth : ℝ

/-- `calculateProficiencyScore` (skill-proficiency.ts): weighted sum of a
logarithmic usage score, a time-investment score, the consistency score and
the depth score. -/
noncomputable def calculateProficiencyScore (m : ProficiencyMetrics) : ℝ :=
  let usageScore := min 100 (Real.logb 10 (m.usageCount + 1) * 40)
  let timeScore := min 100 ((m.daysSinceFirstUse / 365) * 50)
  let consistencyScore := m.consistency
  let depthScore := m.depth
  usageScore * 0.4 + timeScore * 0.2 + consistencyScore * 0.2 + depthScore * 0.2

open Classical in
/-- `getProficiencyLevel`: thresholds at 80, 60 and 30. -/
noncomputable def getProficiencyLevel (score : ℝ) : ProficiencyLevel :=
  if score ≥ 80 then .expert
  else if score ≥ 60 then .advanced
  else if score ≥ 30 then .intermediate
  else .beginner

/-- `getNextMilestone`: session-count proxies of 10, 50 and 150 sessions. -/
def getNextMilestone (level : ProficiencyLevel) (usageCount : Int) : String :=
  match level with
  | .beginner =>
    let sessionsNeeded := max 0 (10 - usageCount)
    if sessionsNeeded > 0 then
      natDecimal sessionsNeeded.toNat ++ " more sessions to reach intermediate"
    else "Ready for intermediate level!"
  | .intermediate =>
    let advancedNeeded := max 0 (50 - usageCount)
    if advancedNeeded > 0 then
      natDecimal advancedNeeded.toNat ++ " more sessions to reach advanced"
    else "Ready for advanced level!"
  | .advanced =>
    let expertNeeded := max 0 (150 - usageCount)
    if expertNeeded > 0 then
      natDecimal expertNeeded.toNat ++ " more sessions to reach expert"
    else "Ready for expert level!"
  | .expert => "Mastery achieved! Consider mentoring others"

/-- One row of the GROUP BY project aggregate query of
`analyzeSkillProficiency`. -/
structure ProjectAgg where
  project : String
  session_count : Int
  avg_prompts : ℚ
  first_session : Int
  last_session : Int
deriving DecidableEq, Inhabited

/-- Minimum of an integer list (SQL MIN over a nonempty group). -/
def minInt : List Int → Int
  | [] => 0
  | x :: t => t.foldl min x

/-- Maximum of an integer list (SQL MAX over a nonempty group). -/
def maxInt : List Int → Int
  | [] => 0
  | x :: t => t.foldl max x

/-- The per-project aggregate rows, keyed in first-appearance order of the
project column. -/
def projectAggs (sessions : List (String × SessionRow)) : List ProjectAgg :=
  (firstOccurrences (sessions.map fun p => p.2.project)).map fun proj =>
    let rows := sessions.filter fun p => decide (p.2.project = proj)
    { project := proj
      session_count := (rows.length : Int)
      avg_prompts := (rows.map fun p => (p.2.prompt_count : ℚ)).sum / (rows.length : ℚ)
      first_session := minInt (rows.map fun p => p.2.start_time)
      last_session := maxInt (rows.map fun p => p.2.start_time) }

/-- The per-skill accumulator of `analyzeSkillProficiency`'s `skillMap`. -/
structure SkillAgg where
  sessions : Int
  firstUsed : Int
  lastUsed : Int
  avgDepth : ℚ
  projects : List String
deriving DecidableEq, Inhabited

/-- Merge one project's aggregate into the skill map for each skill its path
matches; the running depth is the two-term average of the source. -/
def skillFoldStep (acc : List (String × SkillAgg)) (p : ProjectAgg) :
    List (String × SkillAgg) :=
  (detectSkillsFromPath p.project).foldl
    (fun acc skill =>
      match acc.lookup skill with
      | some _ =>
        acc.map fun q =>
          if q.1 = skill then
            (q.1,
              { q.2 with
                sessions := q.2.sessions + p.session_count
                firstUsed := if p.first_session < q.2.firstUsed then p.first_session
                  else q.2.firstUsed
                lastUsed := if p.last_session > q.2.lastUsed then p.last_session
                  else q.2.lastUsed
                avgDepth := (q.2.avgDepth + p.avg_prompts) / 2
                projects := q.2.projects ++ [p.project] })
          else q
      | none =>
        acc ++ [(skill,
          { sessions := p.session_count
            firstUsed := p.first_session
            lastUsed := p.last_session
            avgDepth := p.avg_prompts
            projects := [p.project] })])
    acc

/-- The whole skill map accumulated over all project aggregates. -/
def skillMap (sessions : List (String × SessionRow)) : List (String × SkillAgg) :=
  (projectAggs sessions).foldl skillFoldStep []

/-- Rounding of a rational as JavaScript Math.round (floor of x + 1/2). -/
def ratRound (q : ℚ) : Int :=
  (q + 1 / 2).floor

/-- Rounding of a real as JavaScript Math.round. -/
noncomputable def realRound (x : ℝ) : Int :=
  Int.floor (x + 1 / 2)

/-- One derived skill-proficiency record. -/
structure SkillProficiency where
  skill : String
  category : SkillCategory
  level : ProficiencyLevel
  proficiency : Int
  usageCount : Int
  firstUsed : Int
  lastUsed : Int
  daysSinceFirstUse : Int
  consistency : Int
  depth : Int
  relatedSkills : List String
  nextMilestone : String

/-- Comparator of the final sort: `(a, b) => b.proficiency - a.proficiency`. -/
def proficiencyGe (a b : SkillProficiency) : Bool :=
  decide (b.proficiency ≤ a.proficiency)

/-- `analyzeSkillProficiency` (skill-proficiency.ts): aggregate sessions per
project, fold into the skill map, score each skill and sort by descending
(rounded) proficiency. -/
noncomputable def analyzeSkillProficiency (sessions : List (String × SessionRow))
    (now : Int) : List SkillProficiency :=
  ((skillMap sessions).map fun entry =>
    let skill := entry.1
    let data := entry.2
    let daysSinceFirstUse := (now - data.firstUsed).ediv 86400000
    let daysSinceLastUse := (now - data.lastUsed).ediv 86400000
    let recencyScore : ℚ := max 0 (100 - (daysSinceLastUse : ℚ) * 2)
    let regularityScore : ℚ :=
      min 100 ((data.sessions : ℚ) / (max 1 daysSinceFirstUse : ℚ) * 100)
    let consistency := (recencyScore + regularityScore) / 2
    let depth : ℚ := min 100 (data.avgDepth / 10 * 100)
    let score := calculateProficiencyScore
      { usageCount := (data.sessions : ℝ)
        daysSinceFirstUse := (daysSinceFirstUse : ℝ)
        consistency := (consistency : ℝ)
        depth := (depth : ℝ) }
    let level := getProficiencyLevel score
    let skillDef := getSkillDefinition skill
    { skill := skill
      category := (skillDef.map (·.category)).getD .concept
      level := level
      proficiency := realRound score
      usageCount := data.sessions
      firstUsed := data.firstUsed
      lastUsed := data.lastUsed
      daysSinceFirstUse := daysSinceFirstUse
      consistency := ratRound consistency
      depth := ratRound depth
      relatedSkills := (skillDef.map (·.relatedSkills)).getD []
      nextMilestone := getNextMilestone level data.sessions }).mergeSort proficiencyGe

/-- An unlockable achievement; the source's `type` field is `achType` here
and the write-only metadata map is omitted. -/
structure Achievement where
  id : String
  achType : String
  title : String
  description : String
  icon : String
  unlockedAt : Int
deriving DecidableEq, Inhabited

/-- Progress of a nearly unlocked rule. -/
structure AchievementProgress where
  current : Int
  target : Int
  percentage : ℚ
deriving DecidableEq, Inhabited

/-- One evaluated rule (`AchievementCheck`). -/
structure AchievementCheck where
  achieved : Bool
  achievement : Option Achievement := none
  progress : Option AchievementProgress := none
deriving DecidableEq, Inhabited

/-- Distinct activity dates of all sessions, newest first (the
`daily_activity` CTE of `checkStreakAchievements`, which scans the whole
table). -/
def allActivityDaysDesc (sessions : List (String × SessionRow)) : List Int :=
  distinctDaysDesc (sessions.map fun p => dayOfTimestamp p.2.start_time)

/-- Length of the maximal run of consecutive dates starting at the newest,
as the window-function `streak_group` trick counts it. -/
def descRunLength : List Int → Nat
  | [] => 0
  | [_] => 1
  | d :: d2 :: rest => if d - d2 = 1 then descRunLength (d2 :: rest) + 1 else 1

/-- The streak milestone table. -/
def streakMilestones : List (Int × String × String) :=
  [(3, "3-Day Streak", "🔥"), (7, "Week Warrior", "⚡"), (14, "Two Week Champion", "💪"),
   (30, "Month Master", "🏆"), (60, "60-Day Legend", "👑"), (90, "90-Day Elite", "💎"),
   (180, "Half-Year Hero", "🌟"), (365, "Year of Excellence", "🎖️")]

/-- `checkStreakAchievements`: one achieved entry per milestone at or below
the current streak, and one progress entry per milestone within two days of
unlocking. -/
def checkStreakAchievements (sessions : List (String × SessionRow)) (now : Int) :
    List AchievementCheck :=
  let currentStreak : Int := (descRunLength (allActivityDaysDesc sessions) : Int)
  streakMilestones.foldl
    (fun res m =>
      if currentStreak ≥ m.1 then
        res ++ [{ achieved := true
                  achievement := some
                    { id := "streak_" ++ natDecimal m.1.toNat
                      achType := "streak"
                      title := m.2.1
                      description := "Maintained a " ++ natDecimal m.1.toNat ++
                        "-day coding streak!"
                      icon := m.2.2
                      unlockedAt := now } }]
      else if currentStreak ≥ m.1 - 2 then
        res ++ [{ achieved := false
                  progress := some
                    { current := currentStreak
                      target := m.1
                      percentage := (currentStreak : ℚ) / (m.1 : ℚ) * 100 } }]
      else res)
    []

/-- Lower-cased, space-to-underscore skill slug used in skill achievement
ids (`skill.toLowerCase().replace(/\s+/g, '_')`). -/
def skillSlug (s : String) : String :=
  ((lowerStr s).data.map fun c => if c = ' ' then '_' else c).asString

/-- `checkSkillAchievements`: one achievement per expert skill and one per
advanced skill. -/
noncomputable def checkSkillAchievements (sessions : List (String × SessionRow))
    (now : Int) : List AchievementCheck :=
  (analyzeSkillProficiency sessions now).foldl
    (fun res skill =>
      let res :=
        if skill.level = .expert then
          res ++ [{ achieved := true
                    achievement := some
                      { id := "skill_expert_" ++ skillSlug skill.skill
                        achType := "skill"
                        title := skill.skill ++ " Expert"
                        description := "Achieved expert level proficiency in " ++
                          skill.skill ++ "!"
                        icon := "🎓"
                        unlockedAt := now } }]
        else res
      if skill.level = .advanced then
        res ++ [{ achieved := true
                  achievement := some
                    { id := "skill_advanced_" ++ skillSlug skill.skill
                      achType := "skill"
                      title := skill.skill ++ " Advanced"
                      description := "Reached advanced level in " ++ skill.skill ++ "!"
                      icon := "📚"
                      unlockedAt := now } }]
      else res)
    []

/-- The cache hit percentage `read / (read + creation) * 100`. -/
def cacheHitPct (cacheRead cacheCreation : ℚ) : ℚ :=
  cacheRead / (cacheRead + cacheCreation) * 100

/-- `checkCostAchievements`: sum the cache counters over projects with a
positive cache-creation column; when both sums are truthy, an else-if chain
emits Cache Master at a ratio of at least 90, otherwise Cache Optimizer at a
ratio of at least 80. -/
def checkCostAchievements (projects : List (String × ProjectRow)) (now : Int) :
    List AchievementCheck :=
  let rows := projects.filter fun p => decide (p.2.cache_creation_tokens > 0)
  let cacheRead : Int := (rows.map fun p => p.2.cache_read_tokens).sum
  let cacheCreation : Int := (rows.map fun p => p.2.cache_creation_tokens).sum
  if cacheRead ≠ 0 ∧ cacheCreation ≠ 0 then
    let hr := cacheHitPct (cacheRead : ℚ) (cacheCreation : ℚ)
    if hr ≥ 90 then
      [{ achieved := true
         achievement := some
           { id := "cache_master"
             achType := "cost"
             title := "Cache Master"
             description := "Achieved 90%+ cache hit ratio!"
             icon := "💰"
             unlockedAt := now } }]
    else if hr ≥ 80 then
      [{ achieved := true
         achievement := some
           { id := "cache_optimizer"
             achType := "cost"
             title := "Cache Optimizer"
             description := "Achieved 80%+ cache hit ratio!"
             icon := "💸"
             unlockedAt := now } }]
    else []
  else []

/-- The session-count milestone table. -/
def sessionMilestones : List (Int × String × String) :=
  [(10, "Getting Started", "🌱"), (50, "Regular User", "📊"), (100, "Power User", "⚡"),
   (250, "Super User", "🚀"), (500, "Elite Coder", "💎"), (1000, "Master Developer", "👑")]

/-- The prompt-count milestone table. -/
def promptMilestones : List (Int × String × String) :=
  [(100, "Curious Explorer", "🔍"), (500, "Active Learner", "📖"),
   (1000, "Dedicated Developer", "💻"), (5000, "Prompt Master", "🎯"),
   (10000, "Prompt Legend", "🏅")]

/-- `checkProductivityAchievements`: cumulative session-count and
prompt-count ladders. -/
def checkProductivityAchievements (sessions : List (String × SessionRow)) (now : Int) :
    List AchievementCheck :=
  let totalSessions : Int := (sessions.length : Int)
  let fromSessions := sessionMilestones.foldl
    (fun res m =>
      if totalSessions ≥ m.1 then
        res ++ [{ achieved := true
                  achievement := some
                    { id := "sessions_" ++ natDecimal m.1.toNat
                      achType := "productivity"
                      title := m.2.1
                      description := "Completed " ++ natDecimal m.1.toNat ++ " sessions!"
                      icon := m.2.2
                      unlockedAt := now } }]
      else res)
    []
  let totalPrompts : Int := (sessions.map fun p => p.2.prompt_count).sum
  promptMilestones.foldl
    (fun res m =>
      if totalPrompts ≥ m.1 then
        res ++ [{ achieved := true
                  achievement := some
                    { id := "prompts_" ++ natDecimal m.1.toNat
                      achType := "productivity"
                      title := m.2.1
                      description := "Sent " ++ natDecimal m.1.toNat ++ " prompts!"
                      icon := m.2.2
                      unlockedAt := now } }]
      else res)
    fromSessions

/-- Day of week of an epoch-ms timestamp (0 = Sunday), as SQLite
strftime of a stored UTC timestamp. -/
def dayOfWeek (t : Int) : Int :=
  (dayOfTimestamp t + 4).emod 7

/-- The calendar milestone table. -/
def timeMilestones : List (Int × String × String) :=
  [(1, "Welcome Aboard", "👋"), (7, "One Week In", "📅"), (30, "One Month Strong", "📆"),
   (90, "Three Month Veteran", "🎖️"), (180, "Six Month Pro", "⭐"),
   (365, "One Year Anniversary", "🎂")]

/-- `checkMilestoneAchievements`: days-since-first-session ladder plus the
ten-weekend-sessions unlock. -/
def checkMilestoneAchievements (sessions : List (String × SessionRow)) (now : Int) :
    List AchievementCheck :=
  let fromTime :=
    match sessions.map (fun p => p.2.start_time) with
    | [] => []
    | t :: ts =>
      let daysSinceStart := (now - minInt (t :: ts)).ediv 86400000
      timeMilestones.foldl
        (fun res m =>
          if daysSinceStart ≥ m.1 then
            res ++ [{ achieved := true
                      achievement := some
                        { id := "milestone_" ++ natDecimal m.1.toNat ++ "_days"
                          achType := "milestone"
                          title := m.2.1
                          description := natDecimal m.1.toNat ++
                            " days since your first session!"
                          icon := m.2.2
                          unlockedAt := now } }]
          else res)
        []
  let weekendCount : Int :=
    ((sessions.filter fun p =>
      decide (dayOfWeek p.2.start_time = 0) || decide (dayOfWeek p.2.start_time = 6)).length : Int)
  if weekendCount ≥ 10 then
    fromTime ++ [{ achieved := true
                   achievement := some
                     { id := "weekend_warrior"
                       achType := "milestone"
                       title := "Weekend Warrior"
                       description := "Completed 10+ weekend coding sessions!"
                       icon := "🏖️"
                       unlockedAt := now } }]
  else fromTime

/-- Identifiers already persisted in the achievements table. -/
def unlockedIds (db : Db) : List String :=
  db.achievements.map Prod.fst

/-- `getNewAchievements`: evaluate all five rule families against the store,
keep the achieved candidates, and drop every identifier already unlocked. -/
noncomputable def getNewAchievements (db : Db) (now : Int) : List Achievement :=
  let allChecks :=
    checkStreakAchievements db.sessions now ++
    checkSkillAchievements db.sessions now ++
    checkCostAchievements db.projects now ++
    checkProductivityAchievements db.sessions now ++
    checkMilestoneAchievements db.sessions now
  let achieved := allChecks.filterMap fun c => if c.achieved then c.achievement else none
  achieved.filter fun a => decide (a.id ∉ unlockedIds db)

/-- `saveAchievement`: INSERT OR REPLACE keyed by identifier. -/
def saveAchievement (db : Db) (a : Achievement) : Db :=
  let row : AchievementRow :=
    { achType := a.achType
      title := a.title
      description := a.description
      icon := a.icon
      unlocked_at := a.unlockedAt }
  { db with achievements := upsertAssoc a.id (fun _ => row) row db.achievements }

/-- Persisting a whole batch of achievements, as callers of
`getNewAchievements` do one by one. -/
def saveAchievements (db : Db) (l : List Achievement) : Db :=
  l.foldl saveAchievement db

/-- Example input for C1: the spec scenario of three events at t = 0, 10 min
and 50 min on one project without explicit ids. -/
def exC1 : List HistoryEntry :=
  [⟨"a", 0, "p", none, 0⟩, ⟨"b", 600000, "p", none, 0⟩, ⟨"c", 3000000, "p", none, 0⟩]

/-- C1: for every non-empty event list, the sessions returned by
`groupIntoSessions` partition the input — the prompt counts of the output
sum to the input length, and within any one project and session-identifier
lineage the sessions are pairwise time-disjoint in end-to-start order (every
later session starts no earlier than every earlier one ends). -/
theorem groupIntoSessions_partition (es : List HistoryEntry) (gap : Int) (_hne : es ≠ []) :
    ((groupIntoSessions es gap).map Session.promptCount).sum = es.length ∧
    ∀ p sid : String,
      ((groupIntoSessions es gap).filter fun s =>
          decide (s.project = p) && decide (s.sessionId = sid)).Pairwise
        (fun s t => s.endTime ≤ t.startTime) := by
  have hsorted := sortByTimestamp_sorted es
  have hgp := sessionGroups_pairwise gap _ hsorted
  have hgne := sessionGroups_ne_nil gap (sortByTimestamp es)
  constructor
  · show ((mkSessions 0 (sessionGroups gap (sortByTimestamp es))).map
        Session.promptCount).sum = es.length
    rw [mkSessions_map_promptCount]
    calc ((sessionGroups gap (sortByTimestamp es)).map List.length).sum
        = (sessionGroups gap (sortByTimestamp es)).flatten.length :=
          (List.length_flatten _).symm
    _ = (sortByTimestamp es).length := by rw [sessionGroups_flatten]
    _ = es.length := sortByTimestamp_length es
  · intro p sid
    exact List.Pairwise.sublist (List.filter_sublist _)
      (mkSessions_pairwise _ 0 hgne hgp)

/-- Witness for C1 at the spec's three-event scenario. -/
theorem groupIntoSessions_partition_witness :
    exC1 ≠ [] ∧
    (((groupIntoSessions exC1 1800000).map Session.promptCount).sum = exC1.length ∧
      ∀ p sid : String,
        ((groupIntoSessions exC1 1800000).filter fun s =>
            decide (s.project = p) && decide (s.sessionId = sid)).Pairwise
          (fun s t => s.endTime ≤ t.startTime)) :=
  ⟨by decide, groupIntoSessions_partition exC1 1800000 (by decide)⟩

/-- History for C2: two events on one project, both older than the second
sync's watermark. -/
def histC2 : List HistoryEntry :=
  [⟨"a", 0, "p", none, 0⟩, ⟨"b", 60000, "p", none, 0⟩]

/-- Config snapshot for C2: the same project carries cost metrics, so the
second sync still upserts its row. -/
def cfgC2 : List (String × ProjectMetrics) :=
  [("p", { lastCost := 1 })]

/-- C2 (failing as claimed by the spec): after a first sync records 2 prompts
for project p, a second sync with no new events overwrites the row with a
rollup of the empty post-watermark window, dropping `total_prompts` from 2
to 0 — the cumulative fields are not monotonically non-decreasing. -/
theorem syncData_second_sync_decreases :
    (((syncData histC2 cfgC2 100000 emptyDb).1.projects.lookup "p").map
      (·.total_prompts)) = some 2 ∧
    (((syncData histC2 cfgC2 200000
        (syncData histC2 cfgC2 100000 emptyDb).1).1.projects.lookup "p").map
      (·.total_prompts)) = some 0 := by decide

/-- Events for C3 and C9's duplicate check: a chain at t = 0, 10^6 and
2·10^6 ms whose extremes are farther apart than the 30-minute gap. -/
def exC3 : List HistoryEntry :=
  [⟨"a", 0, "p", none, 0⟩, ⟨"b", 1000000, "p", none, 0⟩, ⟨"c", 2000000, "p", none, 0⟩]

/-- Counterexample to C3 as stated: the first and last events share project
and (absent) session identifier and are 2·10^6 ms apart — more than the
1.8·10^6 ms gap — yet `groupIntoSessions` puts all three events into one
single session, because only consecutive gaps are tested. -/
theorem gapRule_counterexample :
    (2000000 : Int) - 0 > 1800000 ∧
    (groupIntoSessions exC3 1800000).length = 1 ∧
    (groupIntoSessions exC3 1800000).map Session.promptCount = [3] := by decide

/-- C3 (amended to consecutive events): in the timestamp-sorted order,
any two consecutive events placed in the same session have equal session
identifiers, equal projects and a timestamp delta of at most `idleGapMs`,
and at every session boundary the adjacent events differ in identifier or
project or are more than `idleGapMs` apart — so, for consecutive events of
one project and identifier, a delta over the gap always separates sessions
and a delta within the gap always keeps them together. -/
theorem gapRule_consecutive (es : List HistoryEntry) (gap : Int) :
    (∀ g ∈ sessionGroups gap (sortByTimestamp es), List.Chain' (sameRun gap) g) ∧
    List.Chain' (runBreak gap) (sessionGroups gap (sortByTimestamp es)) :=
  ⟨sessionGroups_chain_within gap _, sessionGroups_chain_between gap _⟩

/-- Witness for C3 at the three chained events: the single group is an
in-gap chain, and the (trivial) boundary chain holds. -/
theorem gapRule_consecutive_witness :
    List.Chain' (sameRun 1800000)
      [(⟨"a", 0, "p", none, 0⟩ : HistoryEntry), ⟨"b", 1000000, "p", none, 0⟩,
        ⟨"c", 2000000, "p", none, 0⟩] ∧
    List.Chain' (runBreak 1800000) (sessionGroups 1800000 (sortByTimestamp exC3)) :=
  ⟨(gapRule_consecutive exC3 1800000).1
      [⟨"a", 0, "p", none, 0⟩, ⟨"b", 1000000, "p", none, 0⟩, ⟨"c", 2000000, "p", none, 0⟩]
      (by decide),
    (gapRule_consecutive exC3 1800000).2⟩

/-- Events for C9: explicit identifiers A, B, A on consecutive events. -/
def exC9 : List HistoryEntry :=
  [⟨"e0", 0, "p", some "A", 0⟩, ⟨"e1", 1, "q", some "B", 0⟩, ⟨"e2", 2, "p", some "A", 0⟩]

/-- C9: output session identifiers are not unique — identifiers A, B, A on
consecutive events produce three pairwise distinct Session records whose id
column repeats A — while the synthesized `auto-N` ids of any run are a
duplicate-free sublist of the output identifiers. -/
theorem sessionIds_not_unique :
    ((groupIntoSessions exC9 1800000).map Session.sessionId = ["A", "B", "A"] ∧
      ¬ ((groupIntoSessions exC9 1800000).map Session.sessionId).Nodup ∧
      (groupIntoSessions exC9 1800000).Nodup) ∧
    (∀ (es : List HistoryEntry) (gap : Int),
      (syntheticSessionIds es gap).Sublist
        ((groupIntoSessions es gap).map Session.sessionId)) ∧
    (∀ (es : List HistoryEntry) (gap : Int), (syntheticSessionIds es gap).Nodup) := by
  refine ⟨by decide, ?_, ?_⟩
  · intro es gap
    exact synthIdsFrom_sublist (sessionGroups gap (sortByTimestamp es)) 0
  · intro es gap
    exact synthIdsFrom_nodup (sessionGroups gap (sortByTimestamp es)) 0

theorem lookup_map_update {β : Type _} (k : String) (f : β → β) :
    ∀ (l : List (String × β)) (r : β), l.lookup k = some r →
      (l.map fun p => if p.1 = k then (p.1, f p.2) else p).lookup k = some (f r) := by
  intro l
  induction l with
  | nil => intro r h; simp [List.lookup] at h
  | cons a t ih =>
    intro r h
    obtain ⟨ak, av⟩ := a
    by_cases hk : k = ak
    · subst hk
      rw [List.lookup_cons] at h
      simp only [beq_self_eq_true] at h
      simp only [Option.some.injEq] at h
      simp only [List.map_cons, if_pos rfl]
      rw [List.lookup_cons]
      simp [h]
    · rw [List.lookup_cons] at h
      simp only [beq_eq_false_iff_ne.mpr hk] at h
      have hne : ak ≠ k := fun hh => hk hh.symm
      simp only [List.map_cons, if_neg hne]
      rw [List.lookup_cons]
      simp only [beq_eq_false_iff_ne.mpr hk]
      exact ih r h

theorem lookup_upsertAssoc_conflict {β : Type _} (k : String) (f : β → β) (ins : β)
    (l : List (String × β)) (r : β) (h : l.lookup k = some r) :
    (upsertAssoc k f ins l).lookup k = some (f r) := by
  rw [upsertAssoc, h]
  exact lookup_map_update k f l r h

/-- Sessions for C4: two upserts of the same session id with different
content. -/
def sessA : Session := ⟨"s", "p", 0, 10, 2, 10, "a", "b"⟩

/-- Second upsert for C4. -/
def sessB : Session := ⟨"s", "p", 5, 20, 3, 15, "c", "d"⟩

/-- Counterexample to C4 as stated: re-upserting session id s changes the
stored `duration_ms` from 10 to 15, so a column outside end time, prompt
count and last-content is modified on conflict. -/
theorem upsertSession_duration_counterexample :
    (((upsertSession (upsertSession emptyDb sessA) sessB).sessions.lookup "s").map
      (·.duration_ms)) = some 15 ∧
    (((upsertSession emptyDb sessA).sessions.lookup "s").map (·.duration_ms)) = some 10 ∧
    (15 : Int) ≠ 10 := by decide

/-- C4 (amended): on a session-id conflict the upsert replaces exactly the
end time, prompt count, duration and last-content columns; project, start
time and first-content keep their stored values. -/
theorem upsertSession_frame (db : Db) (s : Session) (r : SessionRow)
    (h : db.sessions.lookup s.sessionId = some r) :
    (upsertSession db s).sessions.lookup s.sessionId =
      some { r with
             end_time := s.endTime
             prompt_count := (s.promptCount : Int)
             duration_ms := s.duration
             last_prompt := s.lastPrompt } := by
  simpa [upsertSession] using
    lookup_upsertAssoc_conflict s.sessionId
      (fun rr => { rr with
                   end_time := s.endTime
                   prompt_count := (s.promptCount : Int)
                   duration_ms := s.duration
                   last_prompt := s.lastPrompt })
      { project := s.project
        start_time := s.startTime
        end_time := s.endTime
        prompt_count := (s.promptCount : Int)
        duration_ms := s.duration
        first_prompt := s.firstPrompt
        last_prompt := s.lastPrompt }
      db.sessions r h

/-- Witness for C4: the double upsert retains start time 0 and first-content
a while taking the new end time, count, duration and last-content. -/
theorem upsertSession_frame_witness :
    (upsertSession (upsertSession emptyDb sessA) sessB).sessions.lookup "s" =
      some ⟨"p", 0, 20, 3, 15, "a", "d"⟩ := by
  have h := upsertSession_frame (upsertSession emptyDb sessA) sessB
    ⟨"p", 0, 10, 2, 10, "a", "b"⟩ (by decide)
  simpa using h

theorem currentRunLength_run (N : ℕ) :
    ∀ (expected : Int) (rest : List Int),
      (rest = [] ∨ rest.headI ≠ expected - N) →
      currentRunLength expected
        (((List.range N).map fun i : ℕ => expected - (i : Int)) ++ rest) = N := by
  induction N with
  | zero =>
    intro expected rest hrest
    simp only [List.range_zero, List.map_nil, List.nil_append]
    cases rest with
    | nil => rfl
    | cons d t =>
      rcases hrest with h | h
      · simp at h
      · have h' : d ≠ expected := by simpa using h
        simp only [currentRunLength]
        rw [if_neg h']
  | succ n ih =>
    intro expected rest hrest
    have hmap : ((List.range (n + 1)).map fun i : ℕ => expected - (i : Int)) =
        expected :: ((List.range n).map fun i : ℕ => (expected - 1) - (i : Int)) := by
      rw [List.range_succ_eq_map, List.map_cons, List.map_map]
      congr 1
      · norm_num
      · apply List.map_congr_left
        intro i _
        simp only [Function.comp_apply]
        push_cast
        ring
    rw [hmap, List.cons_append, currentRunLength, if_pos rfl, ih (expected - 1) rest]
    rcases hrest with h | h
    · exact Or.inl h
    · refine Or.inr ?_
      intro hc
      apply h
      rw [hc]
      push_cast
      ring

/-- C8: when the distinct activity days of the trailing 90-day window form a
run of N consecutive days ending today followed (after a gap) by arbitrary
older days, `calculateStreak` reports a current streak of exactly N — a
contiguous run ending today counts fully, and a one-day gap caps the streak
at the post-gap run length. -/
theorem calculateStreak_current_run (sessions : List (String × SessionRow))
    (now : Int) (N : ℕ) (rest : List Int)
    (hdays : recentActivityDays sessions now =
      ((List.range N).map fun i : ℕ => dayOfTimestamp now - (i : Int)) ++ rest)
    (hgap : rest = [] ∨ rest.headI ≠ dayOfTimestamp now - N) :
    (calculateStreak sessions now).current = N := by
  unfold calculateStreak
  rw [hdays]
  cases hN : ((List.range N).map fun i : ℕ => dayOfTimestamp now - (i : Int)) ++ rest with
  | nil =>
    have hlen := congrArg List.length hN
    simp only [List.length_append, List.length_map, List.length_range,
      List.length_nil] at hlen
    show (0 : ℕ) = N
    omega
  | cons d t =>
    show currentRunLength (dayOfTimestamp now) (d :: t) = N
    rw [← hN]
    exact currentRunLength_run N (dayOfTimestamp now) rest hgap

/-- Witness for C8: three sessions on days 999998, 999999 and 1000000 with
now on day 1000000 give a current streak of 3. -/
theorem calculateStreak_current_run_witness :
    (calculateStreak
      [("s1", ⟨"p", 86400000000, 86400000000, 1, 0, "a", "b"⟩),
       ("s2", ⟨"p", 86313600000, 86313600000, 1, 0, "a", "b"⟩),
       ("s3", ⟨"p", 86227200000, 86227200000, 1, 0, "a", "b"⟩)]
      86400000000).current = 3 :=
  calculateStreak_current_run _ 86400000000 3 [] (by decide) (Or.inl rfl)

theorem mem_keys_of_lookup {β : Type _} {k : String} {v : β} :
    ∀ {l : List (String × β)}, l.lookup k = some v → k ∈ l.map Prod.fst := by
  intro l
  induction l with
  | nil => intro h; simp [List.lookup] at h
  | cons a t ih =>
    intro h
    rw [List.lookup_cons] at h
    by_cases hk : k = a.1
    · simp [hk]
    · simp only [beq_eq_false_iff_ne.mpr hk] at h
      simp [ih h]

theorem keys_map_update {β : Type _} (k : String) (f : β → β) (l : List (String × β)) :
    (l.map fun p => if p.1 = k then (p.1, f p.2) else p).map Prod.fst = l.map Prod.fst := by
  rw [List.map_map]
  apply List.map_congr_left
  intro p _
  by_cases hp : p.1 = k <;> simp [Function.comp, hp]

theorem mem_keys_upsertAssoc_self {β : Type _} (k : String) (f : β → β) (ins : β)
    (l : List (String × β)) : k ∈ (upsertAssoc k f ins l).map Prod.fst := by
  unfold upsertAssoc
  cases hl : l.lookup k with
  | none => simp
  | some v =>
    rw [keys_map_update]
    exact mem_keys_of_lookup hl

theorem mem_keys_upsertAssoc_mono {β : Type _} (k : String) (f : β → β) (ins : β)
    (l : List (String × β)) {x : String} (hx : x ∈ l.map Prod.fst) :
    x ∈ (upsertAssoc k f ins l).map Prod.fst := by
  unfold upsertAssoc
  cases l.lookup k with
  | none => simp [hx]
  | some v => rw [keys_map_update]; exact hx

theorem mem_unlockedIds_saveAchievement_self (db : Db) (a : Achievement) :
    a.id ∈ unlockedIds (saveAchievement db a) := by
  simp only [saveAchievement, unlockedIds]
  exact mem_keys_upsertAssoc_self a.id _ _ db.achievements

theorem mem_unlockedIds_saveAchievement_mono (db : Db) (a : Achievement) {x : String}
    (hx : x ∈ unlockedIds db) : x ∈ unlockedIds (saveAchievement db a) := by
  simp only [saveAchievement, unlockedIds]
  exact mem_keys_upsertAssoc_mono a.id _ _ db.achievements hx

theorem mem_unlockedIds_saveAchievements_mono :
    ∀ (l : List Achievement) (db : Db) {x : String}, x ∈ unlockedIds db →
      x ∈ unlockedIds (saveAchievements db l) := by
  intro l
  induction l with
  | nil => intro db x hx; exact hx
  | cons a t ih =>
    intro db x hx
    exact ih (saveAchievement db a) (mem_unlockedIds_saveAchievement_mono db a hx)

theorem mem_unlockedIds_saveAchievements :
    ∀ (l : List Achievement) (db : Db) {a : Achievement}, a ∈ l →
      a.id ∈ unlockedIds (saveAchievements db l) := by
  intro l
  induction l with
  | nil => intro db a h; simp at h
  | cons b t ih =>
    intro db a h
    rw [List.mem_cons] at h
    rcases h with rfl | h
    · exact mem_unlockedIds_saveAchievements_mono t (saveAchievement db a)
        (mem_unlockedIds_saveAchievement_self db a)
    · exact ih (saveAchievement db b) h

/-- C5: on a fixed store and clock the new-achievement check is
deterministic; no already-persisted identifier is ever in its result; and
after persisting every returned achievement, a second check shares no
identifier with the first batch — a persisted identifier is never re-emitted
as new. -/
theorem getNewAchievements_idempotent (db : Db) (now : Int) :
    getNewAchievements db now = getNewAchievements db now ∧
    ((getNewAchievements db now).map (·.id)) ∩ unlockedIds db = [] ∧
    ((getNewAchievements (saveAchievements db (getNewAchievements db now)) now).map
        (·.id)) ∩ ((getNewAchievements db now).map (·.id)) = [] := by
  refine ⟨rfl, ?_, ?_⟩
  · rw [List.inter_eq_nil_iff_disjoint]
    intro x hx1 hx2
    simp only [getNewAchievements, List.mem_map, List.mem_filter,
      decide_eq_true_eq] at hx1
    obtain ⟨a, ⟨_, hnot⟩, rfl⟩ := hx1
    exact hnot hx2
  · rw [List.inter_eq_nil_iff_disjoint]
    intro x hx1 hx2
    simp only [getNewAchievements, List.mem_map, List.mem_filter,
      decide_eq_true_eq] at hx1
    obtain ⟨a, ⟨_, hnot⟩, rfl⟩ := hx1
    rw [List.mem_map] at hx2
    obtain ⟨b, hb, hid⟩ := hx2
    apply hnot
    rw [← hid]
    exact mem_unlockedIds_saveAchievements _ db hb

theorem getProficiencyLevel_iff (s : ℝ) :
    (getProficiencyLevel s = .expert ↔ 80 ≤ s) ∧
    (getProficiencyLevel s = .advanced ↔ 60 ≤ s ∧ s < 80) ∧
    (getProficiencyLevel s = .intermediate ↔ 30 ≤ s ∧ s < 60) ∧
    (getProficiencyLevel s = .beginner ↔ s < 30) := by
  unfold getProficiencyLevel
  split_ifs with h1 h2 h3 <;>
    refine ⟨?_, ?_, ?_, ?_⟩ <;>
    simp_all <;>
    first
      | linarith
      | (rintro ⟨hl, hr⟩; linarith)
      | (intro hcon; linarith)

/-- C6: the proficiency score is exactly the weighted formula
0.4·min(100, log10(u+1)·40) + 0.2·min(100, (d/365)·50) + 0.2·c + 0.2·e, and
the level is expert at score 80 and above, advanced on [60, 80),
intermediate on [30, 60), and beginner below 30. -/
theorem proficiencyScore_formula_levels (m : ProficiencyMetrics) :
    calculateProficiencyScore m =
      0.4 * min 100 (Real.logb 10 (m.usageCount + 1) * 40) +
      0.2 * min 100 ((m.daysSinceFirstUse / 365) * 50) +
      0.2 * m.consistency + 0.2 * m.depth ∧
    (getProficiencyLevel (calculateProficiencyScore m) = .expert ↔
      80 ≤ calculateProficiencyScore m) ∧
    (getProficiencyLevel (calculateProficiencyScore m) = .advanced ↔
      60 ≤ calculateProficiencyScore m ∧ calculateProficiencyScore m < 80) ∧
    (getProficiencyLevel (calculateProficiencyScore m) = .intermediate ↔
      30 ≤ calculateProficiencyScore m ∧ calculateProficiencyScore m < 60) ∧
    (getProficiencyLevel (calculateProficiencyScore m) = .beginner ↔
      calculateProficiencyScore m < 30) := by
  refine ⟨?_, getProficiencyLevel_iff (calculateProficiencyScore m)⟩
  unfold calculateProficiencyScore
  ring

/-- The identifiers of the achieved entries of a check list. -/
def achievedIds (checks : List AchievementCheck) : List String :=
  (checks.filterMap fun c => if c.achieved then c.achievement else none).map (·.id)

/-- Store for C7: one project with 900 cache-read and 100 cache-creation
tokens. -/
def exC7 : List (String × ProjectRow) :=
  [("p",
    { first_seen := 0
      last_active := 0
      total_prompts := 0
      total_sessions := 0
      total_duration_ms := 0
      lines_added := 0
      lines_removed := 0
      total_cost := 0
      input_tokens := 0
      output_tokens := 0
      cache_creation_tokens := 100
      cache_read_tokens := 900 })]

/-- Counterexample to C7 as stated: at cache-read 900 and cache-creation 100
the hit ratio is 90, yet only `cache_master` is emitted — the 80-percent
achievement is not, because the source's two thresholds form an exclusive
else-if chain rather than independent checks. -/
theorem cacheTiers_counterexample :
    cacheHitPct 900 100 = 90 ∧
    achievedIds (checkCostAchievements exC7 0) = ["cache_master"] ∧
    "cache_optimizer" ∉ achievedIds (checkCostAchievements exC7 0) := by
  have h2 : achievedIds (checkCostAchievements exC7 0) = ["cache_master"] := by
    norm_num [checkCostAchievements, exC7, cacheHitPct]
    decide
  refine ⟨by norm_num [cacheHitPct], h2, ?_⟩
  rw [h2]
  decide

/-- C7 (amended): the cost check emits at most one cache achievement — at a
ratio of at least 90 only `cache_master` fires, and `cache_optimizer` fires
only on [80, 90); in particular cache-read 900 with cache-creation 100 gives
ratio 90 and `cache_master` alone. -/
theorem cacheTiers_exclusive :
    (∀ (projects : List (String × ProjectRow)) (now : Int),
      achievedIds (checkCostAchievements projects now) = [] ∨
      achievedIds (checkCostAchievements projects now) = ["cache_master"] ∨
      achievedIds (checkCostAchievements projects now) = ["cache_optimizer"]) ∧
    cacheHitPct 900 100 = 90 ∧
    achievedIds (checkCostAchievements exC7 0) = ["cache_master"] := by
  refine ⟨?_, by norm_num [cacheHitPct], by
    norm_num [checkCostAchievements, exC7, cacheHitPct]
    decide⟩
  intro projects now
  simp only [checkCostAchievements]
  split_ifs with h1 h2 h3
  · right; left; simp [achievedIds]
  · right; right; simp [achievedIds]
  · left; simp [achievedIds]
  · left; simp [achievedIds]

theorem lowerChar_toNat_small (n : ℕ) (h : n ≤ 122) : (Char.ofNat n).toNat = n := by
  have hv : n.isValidChar := Or.inl (by omega)
  simp [Char.ofNat, hv, Char.ofNatAux, Char.toNat, UInt32.toNat, BitVec.toNat_ofNatLt]

theorem lowerChar_idem (c : Char) : lowerChar (lowerChar c) = lowerChar c := by
  unfold lowerChar
  by_cases h : c.toNat ≥ 65 ∧ c.toNat ≤ 90
  · rw [if_pos h]
    have h2 : (Char.ofNat (c.toNat + 32)).toNat = c.toNat + 32 :=
      lowerChar_toNat_small _ (by omega)
    rw [if_neg (by omega)]
  · rw [if_neg h, if_neg h]

theorem lowerStr_idem (s : String) : lowerStr (lowerStr s) = lowerStr s := by
  unfold lowerStr
  have hdata : ((s.data.map lowerChar).asString).data = s.data.map lowerChar := rfl
  rw [hdata, List.map_map]
  congr 1
  apply List.map_congr_left
  intro c _
  exact lowerChar_idem c

/-- C10: the detected skill list of a project path is duplicate-free and in
taxonomy order (a sublist of the taxonomy's name column), and detection is
invariant under lower-casing the path. -/
theorem detectSkillsFromPath_spec (p : String) :
    (detectSkillsFromPath p).Nodup ∧
    (detectSkillsFromPath p).Sublist (SKILL_TAXONOMY.map SkillDefinition.name) ∧
    detectSkillsFromPath p = detectSkillsFromPath (lowerStr p) := by
  have hsub : (detectSkillsFromPath p).Sublist (SKILL_TAXONOMY.map SkillDefinition.name) :=
    List.Sublist.map _ (List.filter_sublist _)
  have hnd : (SKILL_TAXONOMY.map SkillDefinition.name).Nodup := by decide
  refine ⟨List.Nodup.sublist hsub hnd, hsub, ?_⟩
  unfold detectSkillsFromPath
  rw [lowerStr_idem]
